import Mathlib

/-!
Verification of the EPS / share-price visualization pipeline (`app.py`).

The development shallowly embeds the core data pipeline of the source:
the company block splitter (the `while i < num_columns` column scan),
the series normalizer (`dropna(subset=['Date'])` followed by coercions),
the period aggregator (year range filter, current-year exclusion for the
annual branch, `sort_values('Date').groupby(...).agg('last')`, quarter
end dates), and the growth calculator (`pct_change`, replacement of
infinities, `dropna` on both growth columns).

Raw cells are modelled by an inductive type: a blank cell (read as NaN by
the loader), a cell that the permissive date parser accepts, a cell that
parses as a number, and other non-blank text. Numbers are rationals;
nullable columns are `Option` valued. The float results of `pct_change`
are modelled by `FVal`, which carries NaN and the two infinities
explicitly so that division by a zero base is represented faithfully.
-/

/-- Decidable equality for `Except`, used to evaluate the splitter on
concrete header rows. -/
instance {e a : Type} [DecidableEq e] [DecidableEq a] : DecidableEq (Except e a) := fun x y =>
  match x, y with
  | .error u, .error v =>
    if h : u = v then .isTrue (by rw [h]) else .isFalse (fun hh => h (Except.error.inj hh))
  | .ok u, .ok v =>
    if h : u = v then .isTrue (by rw [h]) else .isFalse (fun hh => h (Except.ok.inj hh))
  | .error _, .ok _ => .isFalse (fun hh => Except.noConfusion hh)
  | .ok _, .error _ => .isFalse (fun hh => Except.noConfusion hh)

/-- A calendar date as stored in the parsed `Date` column. -/
structure Date where
  y : Nat
  m : Nat
  d : Nat
deriving DecidableEq

/-- Total key on dates for comparisons and sorting, consistent with the
chronological order on genuine calendar dates. -/
def Date.key (dt : Date) : Nat := dt.y * 10000 + dt.m * 100 + dt.d

/-- Key on nullable dates used by sorts of the `Date` column. -/
def dKeyO : Option Date → Nat
  | none => 0
  | some dt => dt.key + 1

/-- A raw grid cell, as classified by the loader and the two coercions
`pd.to_datetime(..., errors='coerce')` and
`pd.to_numeric(..., errors='coerce')`. -/
inductive Cell where
  | blank
  | dateCell (y m d : Nat)
  | numCell (q : Rat)
  | textCell (s : String)
deriving DecidableEq

/-- `pd.isna` on a raw cell: only a blank cell is NA to the loader. -/
def isNA : Cell → Bool
  | .blank => true
  | _ => false

/-- `pd.to_datetime(cell, errors='coerce')`: cells the permissive date
parser accepts become dates, every other cell becomes NaT. -/
def parseDate : Cell → Option Date
  | .dateCell y m d => some ⟨y, m, d⟩
  | _ => none

/-- `pd.to_numeric(cell, errors='coerce')`: numeric cells become numbers,
every other cell becomes NaN. -/
def parseNum : Cell → Option Rat
  | .numCell q => some q
  | _ => none

/-- One raw row of a company block: the (Date, EPS, Share Price) cells. -/
abbrev Row := Cell × Cell × Cell

/-- A normalized observation: row of the per-company DataFrame after the
two coercions; any field may be null. -/
structure Obs where
  date : Option Date
  eps : Option Rat
  price : Option Rat
deriving DecidableEq

/-- Coercion of one retained raw row into an observation (lines 48-50 of
the source: `to_datetime` / `to_numeric` with `errors='coerce'`). -/
def mkObs (r : Row) : Obs := ⟨parseDate r.1, parseNum r.2.1, parseNum r.2.2⟩

/-- The series normalizer (lines 47-50): drop the rows whose raw `Date`
cell is NA, then coerce the three columns. Row order is preserved; no
sort is performed here. -/
def normalizeSeries (rows : List Row) : List Obs :=
  (rows.filter (fun r => !(isNA r.1))).map mkObs

/-! ### Company block splitter (lines 29-56) -/

/-- Python `str.strip()`: remove leading and trailing whitespace. -/
def pyStrip (s : String) : String :=
  String.mk (((s.toList.dropWhile Char.isWhitespace).reverse.dropWhile Char.isWhitespace).reverse)

/-- The blank-header test of line 35:
`pd.isna(company_name) or company_name.strip() == ''`. -/
def isBlankHeader : Option String → Bool
  | none => true
  | some s => pyStrip s == ""

/-- Insertion into the `company_data` dict (line 53): an existing key is
overwritten in place, a new key is appended. -/
def dictInsert (m : List (String × Nat)) (k : String) (v : Nat) : List (String × Nat) :=
  match m with
  | [] => [(k, v)]
  | p :: t => if p.1 == k then (k, v) :: t else p :: dictInsert t k v

/-- The column scan of lines 32-56, phrased on the suffix of headers at
index `i`. A blank header advances by one column. A non-blank header at
`i` takes columns `i, i+1, i+2` as a block and advances by four; when
fewer than three columns remain, the rename
`company_df.columns = ['Date', 'EPS', 'Share Price']` raises a
length-mismatch `ValueError`, modelled by the error branch. -/
def scanHeaders : List (Option String) → Nat → List (String × Nat) →
    Except String (List (String × Nat))
  | [], _, acc => .ok acc
  | h :: t, i, acc =>
    if isBlankHeader h then
      scanHeaders t (i + 1) acc
    else
      match t with
      | [] => .error "Length mismatch: Expected axis has fewer than 3 elements"
      | [_] => .error "Length mismatch: Expected axis has fewer than 3 elements"
      | _ :: _ :: [] => .ok (dictInsert acc (pyStrip (h.getD "")) i)
      | _ :: _ :: _ :: rest => scanHeaders rest (i + 4) (dictInsert acc (pyStrip (h.getD "")) i)

/-- Block discovery: run the column scan from index 0 with an empty dict.
Each entry maps a trimmed company name to the start index of its block. -/
def discoverBlocks (headers : List (Option String)) : Except String (List (String × Nat)) :=
  scanHeaders headers 0 []

/-- The three column indices of a block starting at `j`. -/
def blockCols (j : Nat) : List Nat := [j, j + 1, j + 2]

/-- Discovered blocks rendered as (name, column indices) pairs. -/
def discoveredCols (headers : List (Option String)) :
    Except String (List (String × List Nat)) :=
  (discoverBlocks headers).map (fun bs => bs.map (fun b => (b.1, blockCols b.2)))

/-- The raw rows of the block starting at column `j`: cells `j`, `j+1`,
`j+2` of every data row (missing trailing cells are blank). -/
def blockRows (rows : List (List Cell)) (j : Nat) : List Row :=
  rows.map (fun r => (r.getD j .blank, r.getD (j + 1) .blank, r.getD (j + 2) .blank))

/-- The full load step: discover blocks, then normalize each block into
the `company_data` mapping. -/
def buildCompanyData (headers : List (Option String)) (rows : List (List Cell)) :
    Except String (List (String × List Obs)) :=
  (discoverBlocks headers).map (fun bs => bs.map (fun b => (b.1, normalizeSeries (blockRows rows b.2))))

/-! ### Period aggregator (lines 85-121) -/

/-- The year-range filter of line 86:
`(Date.dt.year >= start_year) & (Date.dt.year <= end_year)`. A NaT date
yields NaN for `dt.year`, and both comparisons are false, so the row is
excluded. -/
def inYearRange (sy ey : Nat) (o : Obs) : Bool :=
  match o.date with
  | some dt => decide (sy ≤ dt.y) && decide (dt.y ≤ ey)
  | none => false

/-- Filtered series after the date-range selection of line 86. -/
def filterRange (sy ey : Nat) (s : List Obs) : List Obs :=
  s.filter (inYearRange sy ey)

/-- The current-year exclusion of line 93 (annual branch only):
`Date.dt.year < current_year`; again false for a NaT date. -/
def beforeYear (cy : Nat) (o : Obs) : Bool :=
  match o.date with
  | some dt => decide (dt.y < cy)
  | none => false

/-- The `Year` column of line 96 (`Date.dt.year`). Only evaluated on rows
that passed the range filter, whose date is present. -/
def yearOf (o : Obs) : Nat :=
  match o.date with
  | some dt => dt.y
  | none => 0

/-- Quarter index 1-4 of a month, fixed calendar quarters. -/
def quarterOfMonth (m : Nat) : Nat := (m - 1) / 3 + 1

/-- The `Quarter` period of line 108 (`Date.dt.to_period('Q')`), encoded
as `year * 4 + (quarterIndex - 1)` so that the groupby key order is the
chronological order of quarters. -/
def qKey (o : Obs) : Nat :=
  match o.date with
  | some dt => dt.y * 4 + (quarterOfMonth dt.m - 1)
  | none => 0

/-- The last calendar day of an encoded quarter, the date part of
`Quarter.dt.end_time` (line 116): Mar 31, Jun 30, Sep 30 or Dec 31. -/
def quarterEndDate (k : Nat) : Date :=
  let q := k % 4 + 1
  ⟨k / 4, 3 * q, if q = 1 then 31 else if q = 2 then 30 else if q = 3 then 30 else 31⟩

/-- Date order on observations used by `sort_values('Date')`. -/
def obsLE (a b : Obs) : Prop := dKeyO a.date ≤ dKeyO b.date

instance : DecidableRel obsLE :=
  fun a b => inferInstanceAs (Decidable (dKeyO a.date ≤ dKeyO b.date))

instance : IsTotal Obs obsLE := ⟨fun a b => Nat.le_total (dKeyO a.date) (dKeyO b.date)⟩

instance : IsTrans Obs obsLE := ⟨fun _ _ _ => Nat.le_trans⟩

/-- `sort_values('Date')` on the observation frame (lines 98 and 110). -/
def sortByDate (s : List Obs) : List Obs := List.insertionSort obsLE s

/-- Sorted, deduplicated group keys: `groupby` with the default
`sort=True` orders the groups by key ascending. -/
def keysOf (key : Obs → Nat) (s : List Obs) : List Nat :=
  List.insertionSort (fun a b => a ≤ b) (s.map key).dedup

/-- The groups of `groupby(key)` on a frame `s`, each group in frame
order, groups ordered by key. -/
def groupsOf (key : Obs → Nat) (s : List Obs) : List (Nat × List Obs) :=
  (keysOf key s).map (fun k => (k, s.filter (fun o => key o = k)))

/-- The `'last'` aggregation of pandas `GroupBy.agg`: the last non-null
entry of the column, null when every entry is null. -/
def lastSome {α : Type} : List (Option α) → Option α
  | [] => none
  | x :: t =>
    match lastSome t with
    | some v => some v
    | none => x

/-- One row of the aggregated frame: representative date and the two
last-of-period values. -/
structure AggPoint where
  date : Option Date
  eps : Option Rat
  price : Option Rat
deriving DecidableEq

/-- Date order on aggregated points, for the final `sort_values('Date')`
of line 121. -/
def ptLE (a b : AggPoint) : Prop := dKeyO a.date ≤ dKeyO b.date

instance : DecidableRel ptLE :=
  fun a b => inferInstanceAs (Decidable (dKeyO a.date ≤ dKeyO b.date))

instance : IsTotal AggPoint ptLE := ⟨fun a b => Nat.le_total (dKeyO a.date) (dKeyO b.date)⟩

instance : IsTrans AggPoint ptLE := ⟨fun _ _ _ => Nat.le_trans⟩

/-- `sort_values('Date')` on the aggregated frame. -/
def sortPts (l : List AggPoint) : List AggPoint := List.insertionSort ptLE l

/-- Granularity selected in the sidebar. -/
inductive Freq where
  | quarterly
  | annual
deriving DecidableEq

/-- The input frame of the annual groupby: range filter, then the
current-year exclusion of line 93. -/
def annualInput (sy ey cy : Nat) (s : List Obs) : List Obs :=
  (filterRange sy ey s).filter (beforeYear cy)

/-- The annual branch (lines 88-102 and 121): exclude the current year,
sort by date, group by year, take the last non-null EPS, share price and
date of each group, then sort the aggregated frame by date. -/
def aggAnnual (cy : Nat) (f1 : List Obs) : List AggPoint :=
  let sorted := sortByDate (f1.filter (beforeYear cy))
  sortPts ((groupsOf yearOf sorted).map (fun kg =>
    ⟨lastSome (kg.2.map Obs.date), lastSome (kg.2.map Obs.eps), lastSome (kg.2.map Obs.price)⟩))

/-- The quarterly branch (lines 105-118 and 121): sort by date, group by
quarter, take the last non-null EPS and share price of each group, set
the representative date to the quarter end (line 116), then sort the
aggregated frame by date. -/
def aggQuarterly (f1 : List Obs) : List AggPoint :=
  let sorted := sortByDate f1
  sortPts ((groupsOf qKey sorted).map (fun kg =>
    ⟨some (quarterEndDate kg.1), lastSome (kg.2.map Obs.eps), lastSome (kg.2.map Obs.price)⟩))

/-- The period aggregator: range filter of line 86 followed by the
selected branch. -/
def aggregate (freq : Freq) (sy ey cy : Nat) (s : List Obs) : List AggPoint :=
  let f1 := filterRange sy ey s
  match freq with
  | .annual => aggAnnual cy f1
  | .quarterly => aggQuarterly f1

/-! ### Growth calculator (lines 193-199) -/

/-- A float-valued computation result: NaN, an infinity, or a finite
value. -/
inductive FVal where
  | nan
  | pinf
  | ninf
  | fin (q : Rat)
deriving DecidableEq

/-- One cell of `pct_change()`: `(curr - prev) / prev`. A null operand
gives NaN; a zero base gives an infinity (or NaN when the difference is
also zero), exactly as float division does. -/
def pctChange (prev curr : Option Rat) : FVal :=
  match prev, curr with
  | some p, some c =>
    if p = 0 then
      if 0 < c then .pinf else if c < 0 then .ninf else .nan
    else .fin ((c - p) / p)
  | _, _ => .nan

/-- Multiplication by 100 of line 194/195; infinities and NaN absorb it. -/
def times100 : FVal → FVal
  | .fin q => .fin (q * 100)
  | x => x

/-- `replace([inf, -inf], pd.NA)` followed by the `dropna` test: only a
finite value survives as a number. -/
def toFinite : FVal → Option Rat
  | .fin q => some q
  | _ => none

/-- One row of the growth frame that survived the `dropna` of line 199:
both growth values are finite numbers. -/
structure GrowthPoint where
  date : Option Date
  epsG : Rat
  priceG : Rat
deriving DecidableEq

/-- The growth row for the adjacent pair `(p, c)`: emitted only when both
the EPS and the share-price growth are finite, and carrying the date of
the current row. -/
def emitGrowth (p c : AggPoint) : Option GrowthPoint :=
  match toFinite (times100 (pctChange p.eps c.eps)),
        toFinite (times100 (pctChange p.price c.price)) with
  | some e, some r => some ⟨c.date, e, r⟩
  | _, _ => none

/-- The growth calculator on an ordered aggregated frame: `pct_change`
pairs each row with its predecessor; rows whose growth is NaN or
infinite in either column are dropped (lines 194-199). -/
def growthPoints (pts : List AggPoint) : List GrowthPoint :=
  (pts.zip pts.tail).filterMap (fun pc => emitGrowth pc.1 pc.2)

/-- Lines 193-199 as run by the app: re-sort the aggregated frame by
date, then compute and filter the growth columns. -/
def growthOf (pts : List AggPoint) : List GrowthPoint :=
  growthPoints (sortPts pts)

/-! ### Application state (load-once dataset, per-selection view) -/

/-- The process state after the load: the `company_data` dictionary. -/
structure AppState where
  companyData : List (String × List Obs)
deriving DecidableEq

/-- `company_data[selected_company]` (line 69). -/
def lookupSeries (m : List (String × List Obs)) (n : String) : List Obs :=
  match m.find? (fun p => p.1 == n) with
  | some p => p.2
  | none => []

/-- One interactive recompute (lines 67-199): look the selected company
up, filter, aggregate and compute growth. The local `company_df` of the
source is rebound by the filter of line 86, never written back into
`company_data`, so the state component of the result is the input state. -/
def runView (st : AppState) (n : String) (freq : Freq) (sy ey cy : Nat) :
    AppState × List AggPoint × List GrowthPoint :=
  let s := lookupSeries st.companyData n
  let agg := aggregate freq sy ey cy s
  (st, agg, growthOf agg)

/-! ### Helper lemmas -/

/-- A member of the dict after insertion is an old member or the new
binding. -/
lemma mem_dictInsert {m : List (String × Nat)} {k : String} {v : Nat} {p : String × Nat}
    (hp : p ∈ dictInsert m k v) : p ∈ m ∨ p = (k, v) := by
  induction m with
  | nil =>
    simp only [dictInsert, List.mem_singleton] at hp
    exact Or.inr hp
  | cons h t ih =>
    rw [dictInsert] at hp
    by_cases hc : h.1 == k
    · rw [if_pos hc] at hp
      rcases List.mem_cons.mp hp with hp | hp
      · exact Or.inr hp
      · exact Or.inl (List.mem_cons_of_mem h hp)
    · rw [if_neg hc] at hp
      rcases List.mem_cons.mp hp with hp | hp
      · exact Or.inl (hp ▸ List.mem_cons_self h t)
      · rcases ih hp with hp | hp
        · exact Or.inl (List.mem_cons_of_mem h hp)
        · exact Or.inr hp

/-- Discovered blocks never overlap: any two entries with distinct start
columns are at least three columns apart. -/
def NoOverlap (res : List (String × Nat)) : Prop :=
  ∀ p ∈ res, ∀ q ∈ res, p.2 ≠ q.2 → p.2 + 3 ≤ q.2 ∨ q.2 + 3 ≤ p.2

/-- Inserting a binding whose start lies at or beyond every existing
block keeps the dict overlap-free. -/
lemma noOverlap_dictInsert {acc : List (String × Nat)} {k : String} {i : Nat}
    (hbound : ∀ p ∈ acc, p.2 + 3 ≤ i) (hno : NoOverlap acc) :
    NoOverlap (dictInsert acc k i) := by
  intro p hp q hq hne
  rcases mem_dictInsert hp with hp | hp <;> rcases mem_dictInsert hq with hq | hq
  · exact hno p hp q hq hne
  · subst hq
    exact Or.inl (hbound p hp)
  · subst hp
    exact Or.inr (hbound q hq)
  · subst hp
    subst hq
    exact absurd rfl hne

/-- Loop invariant of the column scan: starting from an overlap-free
dict whose blocks all end before the scan position, a successful scan
returns an overlap-free dict. -/
lemma scanHeaders_noOverlap (n : Nat) :
    ∀ l : List (Option String), l.length ≤ n → ∀ i acc res,
      (∀ p ∈ acc, p.2 + 3 ≤ i) → NoOverlap acc →
      scanHeaders l i acc = .ok res → NoOverlap res := by
  induction n with
  | zero =>
    intro l hl i acc res _ hno hscan
    have hnil : l = [] := List.length_eq_zero.mp (Nat.le_zero.mp hl)
    subst hnil
    rw [scanHeaders] at hscan
    cases hscan
    exact hno
  | succ n ih =>
    intro l hl i acc res hbound hno hscan
    cases l with
    | nil =>
      simp only [scanHeaders.eq_def] at hscan
      cases hscan
      exact hno
    | cons h t =>
      rw [scanHeaders.eq_def] at hscan
      dsimp only at hscan
      by_cases hb : isBlankHeader h
      · rw [if_pos hb] at hscan
        refine ih t ?_ (i + 1) acc res (fun p hp => Nat.le_succ_of_le (hbound p hp)) hno hscan
        simpa using Nat.lt_succ_iff.mp (Nat.lt_of_lt_of_le (by simp) hl)
      · rw [if_neg hb] at hscan
        cases t with
        | nil => exact absurd hscan (by simp)
        | cons x t₁ =>
          cases t₁ with
          | nil => exact absurd hscan (by simp)
          | cons y t₂ =>
            cases t₂ with
            | nil =>
              cases hscan
              exact noOverlap_dictInsert hbound hno
            | cons z rest =>
              refine ih rest ?_ (i + 4) (dictInsert acc (pyStrip (h.getD "")) i) res ?_
                (noOverlap_dictInsert hbound hno) hscan
              · simp only [List.length_cons] at hl ⊢
                omega
              · intro p hp
                rcases mem_dictInsert hp with hp | hp
                · have := hbound p hp
                  omega
                · rw [hp]
                  omega

/-! ### Claim C8: block discovery -/

/-- Header row with two company blocks, each three data columns and one
blank separator. -/
def hdrsTwoBlocks : List (Option String) :=
  [some "A", some "", some "", some "", some "B", some "", some "", some ""]

/-- Header row with a stray leading blank column. -/
def hdrsLeadingBlank : List (Option String) :=
  [some "", some "A", some "", some "", some ""]

/-- C8: the header scan advances by 1 on a blank header and takes columns
i, i+1, i+2 then advances by 4 on a non-blank one; the two-block header
row yields exactly blocks A at columns 0-2 and B at columns 4-6, the
leading-blank row yields A at columns 1-3 with no off-by-one, and on any
header row the discovered blocks never overlap. -/
theorem c8_block_discovery :
    discoveredCols hdrsTwoBlocks = .ok [("A", [0, 1, 2]), ("B", [4, 5, 6])] ∧
    discoveredCols hdrsLeadingBlank = .ok [("A", [1, 2, 3])] ∧
    ∀ headers res, discoverBlocks headers = .ok res →
      ∀ p ∈ res, ∀ q ∈ res, p.2 ≠ q.2 → p.2 + 3 ≤ q.2 ∨ q.2 + 3 ≤ p.2 := by
  refine ⟨by decide, by decide, ?_⟩
  intro headers res hscan
  exact scanHeaders_noOverlap headers.length headers (Nat.le_refl _) 0 [] res
    (by intro p hp; cases hp) (by intro p hp; cases hp) hscan

/-- C8 witness: the non-overlap part applied to the concrete two-block
header row. -/
theorem c8_block_discovery_witness :
    ∀ p ∈ [("A", 0), ("B", 4)], ∀ q ∈ [("A", 0), ("B", 4)],
      p.2 ≠ q.2 → p.2 + 3 ≤ q.2 ∨ q.2 + 3 ≤ p.2 :=
  c8_block_discovery.2.2 hdrsTwoBlocks [("A", 0), ("B", 4)] (by decide)

/-! ### Claim C2: truncated trailing block -/

/-- Header row whose trailing block B has only two columns left in the
grid. -/
def hdrsTrunc : List (Option String) :=
  [some "A", some "", some "", some "", some "B", some ""]

/-- C2: on a header row whose final non-blank header starts a block with
fewer than 3 remaining columns, the load step raises the length-mismatch
`ValueError` of the column rename instead of forming a truncated,
null-padded block. -/
theorem c2_truncation_raises :
    buildCompanyData hdrsTrunc [] =
      .error "Length mismatch: Expected axis has fewer than 3 elements" := by
  decide

/-! ### Claim C1: date drop in the normalizer -/

/-- Normalizer input: a parseable date, a non-blank unparseable date with
valid numbers, and a blank date. -/
def exRowsC1 : List Row :=
  [(Cell.dateCell 2021 5 3, Cell.numCell 2, Cell.numCell 30),
   (Cell.textCell "oops", Cell.numCell 1, Cell.numCell 2),
   (Cell.blank, Cell.numCell 4, Cell.numCell 5)]

/-- C1 counterexample: the row whose `Date` cell is non-blank but fails
to parse is not excluded — it survives normalization with a null date
(only the blank-date row is dropped), so the claimed date-drop is false. -/
theorem c1_counterexample :
    isNA (Cell.textCell "oops") = false ∧
    parseDate (Cell.textCell "oops") = none ∧
    normalizeSeries exRowsC1 =
      [⟨some ⟨2021, 5, 3⟩, some 2, some 30⟩, ⟨none, some 1, some 2⟩] := by
  refine ⟨rfl, rfl, by decide⟩

/-- C1 amended: a row is excluded from the normalized series exactly when
its raw `Date` cell is blank/missing; every row with a non-blank `Date`
cell yields an observation whose fields are the three coercions, even
when the date coercion fails and leaves a null date. -/
theorem c1_date_drop_amended (rows : List Row) :
    (normalizeSeries rows).length = (rows.filter (fun r => !(isNA r.1))).length ∧
    (∀ o ∈ normalizeSeries rows, ∃ r ∈ rows, isNA r.1 = false ∧ o = mkObs r) ∧
    (∀ r ∈ rows, isNA r.1 = false → mkObs r ∈ normalizeSeries rows) := by
  unfold normalizeSeries
  refine ⟨List.length_map _ _, ?_, ?_⟩
  · intro o ho
    rcases List.mem_map.mp ho with ⟨r, hr, he⟩
    rcases List.mem_filter.mp hr with ⟨hmem, hpred⟩
    exact ⟨r, hmem, by simpa using hpred, he.symm⟩
  · intro r hr hna
    exact List.mem_map_of_mem _ (List.mem_filter.mpr ⟨hr, by simp [hna]⟩)

/-- C1 witness: the amended theorem applied to the concrete rows — the
unparseable-date row of `exRowsC1` is retained as an observation. -/
theorem c1_date_drop_witness :
    mkObs (Cell.textCell "oops", Cell.numCell 1, Cell.numCell 2) ∈ normalizeSeries exRowsC1 :=
  (c1_date_drop_amended exRowsC1).2.2 (Cell.textCell "oops", Cell.numCell 1, Cell.numCell 2)
    (by decide) (by decide)

/-! ### Claim C3: ordering of the normalized series -/

/-- Normalizer input with descending dates. -/
def exRowsC3 : List Row :=
  [(Cell.dateCell 2021 6 1, Cell.numCell 1, Cell.numCell 10),
   (Cell.dateCell 2021 3 1, Cell.numCell 2, Cell.numCell 20)]

/-- C3 counterexample: the normalizer performs no sort — fed rows with
descending dates, it returns them in the original order, which is not
ascending by date. -/
theorem c3_counterexample :
    normalizeSeries exRowsC3 =
      [⟨some ⟨2021, 6, 1⟩, some 1, some 10⟩, ⟨some ⟨2021, 3, 1⟩, some 2, some 20⟩] ∧
    ¬ (normalizeSeries exRowsC3).Sorted obsLE := by
  refine ⟨by decide, ?_⟩
  intro hs
  have h := List.rel_of_sorted_cons hs _ (List.mem_singleton_self _)
  exact absurd h (by decide)

/-- C3 amended: normalization preserves the original relative row order
(it distributes over concatenation and performs no reordering); the
ascending-by-date ordering is established later, by the aggregator's
`sort_values('Date')`, which produces a permutation of the series sorted
ascending by date. -/
theorem c3_order_amended (a b : List Row) (s : List Obs) :
    normalizeSeries (a ++ b) = normalizeSeries a ++ normalizeSeries b ∧
    (sortByDate s).Sorted obsLE ∧
    (sortByDate s).Perm s := by
  refine ⟨?_, List.sorted_insertionSort obsLE s, List.perm_insertionSort obsLE s⟩
  unfold normalizeSeries
  rw [List.filter_append, List.map_append]

/-- Sorting the observation frame does not change its members. -/
lemma mem_sortByDate {s : List Obs} {o : Obs} : o ∈ sortByDate s ↔ o ∈ s :=
  (List.perm_insertionSort obsLE s).mem_iff

/-- Sorting the aggregated frame does not change its members. -/
lemma mem_sortPts {l : List AggPoint} {p : AggPoint} : p ∈ sortPts l ↔ p ∈ l :=
  (List.perm_insertionSort ptLE l).mem_iff

/-- A non-null `'last'` aggregate is one of the column entries. -/
lemma lastSome_mem {α : Type} {l : List (Option α)} {v : α}
    (h : lastSome l = some v) : some v ∈ l := by
  induction l with
  | nil => exact absurd h (by simp [lastSome])
  | cons x t ih =>
    rw [lastSome] at h
    cases hl : lastSome t with
    | some w =>
      rw [hl] at h
      have h2 : some w = some v := h
      exact List.mem_cons_of_mem x (ih (hl.trans h2))
    | none =>
      rw [hl] at h
      have h2 : x = some v := h
      exact List.mem_cons.mpr (Or.inl h2.symm)

/-- Every row that passes the year-range filter carries a parsed date
whose year lies in the selected range. -/
lemma filterRange_date {sy ey : Nat} {s : List Obs} {o : Obs}
    (ho : o ∈ filterRange sy ey s) : ∃ dt, o.date = some dt ∧ sy ≤ dt.y ∧ dt.y ≤ ey := by
  have hp := (List.mem_filter.mp ho).2
  cases hd : o.date with
  | none => rw [inYearRange, hd] at hp; cases hp
  | some dt =>
    rw [inYearRange, hd] at hp
    exact ⟨dt, rfl, by simpa using hp⟩

/-- Members of a `groupby` group: the group of key `k` is the filter of
the frame by `k`, and the key of each group occurs in the frame. -/
lemma mem_groupsOf {key : Obs → Nat} {s : List Obs} {kg : Nat × List Obs}
    (h : kg ∈ groupsOf key s) :
    kg.2 = s.filter (fun o => key o = kg.1) ∧ kg.1 ∈ s.map key := by
  rcases List.mem_map.mp h with ⟨k, hk, he⟩
  have h1 : kg.1 = k := by rw [← he]
  have h2 : kg.2 = s.filter (fun o => key o = k) := by rw [← he]
  refine ⟨by rw [h2, h1], ?_⟩
  rw [h1]
  have := hk
  unfold keysOf at this
  rw [(List.perm_insertionSort _ _).mem_iff, List.mem_dedup] at this
  exact this

/-- Every key occurring in the frame owns a group. -/
lemma key_mem_groupsOf {key : Obs → Nat} {s : List Obs} {k : Nat} (h : k ∈ s.map key) :
    (k, s.filter (fun o => key o = k)) ∈ groupsOf key s := by
  unfold groupsOf
  refine List.mem_map_of_mem _ ?_
  unfold keysOf
  rw [(List.perm_insertionSort _ _).mem_iff, List.mem_dedup]
  exact h

/-- The quarterly branch of `aggregate`, unfolded. -/
lemma aggregate_quarterly (sy ey cy : Nat) (s : List Obs) :
    aggregate Freq.quarterly sy ey cy s = aggQuarterly (filterRange sy ey s) := rfl

/-- The annual branch of `aggregate`, unfolded. -/
lemma aggregate_annual (sy ey cy : Nat) (s : List Obs) :
    aggregate Freq.annual sy ey cy s = aggAnnual cy (filterRange sy ey s) := rfl

/-- Membership in the quarterly aggregated frame, in terms of groups. -/
lemma mem_aggQuarterly {f1 : List Obs} {p : AggPoint} :
    p ∈ aggQuarterly f1 ↔ ∃ kg ∈ groupsOf qKey (sortByDate f1),
      AggPoint.mk (some (quarterEndDate kg.1)) (lastSome (kg.2.map Obs.eps))
        (lastSome (kg.2.map Obs.price)) = p := by
  unfold aggQuarterly
  rw [mem_sortPts, List.mem_map]

/-- Membership in the annual aggregated frame, in terms of groups. -/
lemma mem_aggAnnual {cy : Nat} {f1 : List Obs} {p : AggPoint} :
    p ∈ aggAnnual cy f1 ↔ ∃ kg ∈ groupsOf yearOf (sortByDate (f1.filter (beforeYear cy))),
      AggPoint.mk (lastSome (kg.2.map Obs.date)) (lastSome (kg.2.map Obs.eps))
        (lastSome (kg.2.map Obs.price)) = p := by
  unfold aggAnnual
  rw [mem_sortPts, List.mem_map]

/-! ### Claim C9: the stored dataset is never mutated by a view -/

/-- C9: one interactive recompute returns the stored `company_data`
unchanged — the filter of line 86 rebinds the local `company_df`, and the
added period and growth columns live on that local copy only, so the
authoritative per-company dataset is identical before and after any
selection of company, range and granularity. -/
theorem c9_dataset_unchanged (st : AppState) (n : String) (freq : Freq) (sy ey cy : Nat) :
    (runView st n freq sy ey cy).1 = st := rfl

/-! ### Claim C10: no null-date observation reaches grouping -/

/-- C10: the inclusive year-range filter evaluates to false on a null
date, so every observation that survives it — in particular every
observation handed to the annual or quarterly grouping — carries a
parsed date within the selected range. -/
theorem c10_null_dates_filtered (s : List Obs) (sy ey cy : Nat) :
    (∀ o ∈ filterRange sy ey s, ∃ dt, o.date = some dt ∧ sy ≤ dt.y ∧ dt.y ≤ ey) ∧
    (∀ o ∈ sortByDate (filterRange sy ey s), o.date ≠ none) ∧
    (∀ o ∈ sortByDate ((filterRange sy ey s).filter (beforeYear cy)), o.date ≠ none) := by
  refine ⟨fun o ho => filterRange_date ho, ?_, ?_⟩
  · intro o ho
    rcases filterRange_date (mem_sortByDate.mp ho) with ⟨dt, hdt, _⟩
    rw [hdt]
    exact Option.some_ne_none dt
  · intro o ho
    rcases filterRange_date (List.mem_filter.mp (mem_sortByDate.mp ho)).1 with ⟨dt, hdt, _⟩
    rw [hdt]
    exact Option.some_ne_none dt

/-- Series with one dated and one null-date observation (the latter as
left by a non-blank unparseable date cell). -/
def exNullDate : List Obs :=
  [⟨some ⟨2021, 5, 1⟩, some 1, some 2⟩, ⟨none, some 3, some 4⟩]

/-- C10 witness: the theorem applied to the concrete mixed series. -/
theorem c10_null_dates_filtered_witness :
    ∃ dt, (Obs.mk (some ⟨2021, 5, 1⟩) (some 1) (some 2)).date = some dt ∧
      2000 ≤ dt.y ∧ dt.y ≤ 2030 :=
  (c10_null_dates_filtered exNullDate 2000 2030 2025).1
    ⟨some ⟨2021, 5, 1⟩, some 1, some 2⟩ (by decide)

/-! ### Claim C5: growth drop semantics -/

/-- Inversion of a finite growth cell: `pct_change` survives the
infinity replacement and the `dropna` exactly when both operands are
present and the base is non-zero, and then equals
`(curr - prev) / prev * 100`. -/
lemma toFinite_pctChange {prev curr : Option Rat} {e : Rat}
    (h : toFinite (times100 (pctChange prev curr)) = some e) :
    ∃ p c, prev = some p ∧ p ≠ 0 ∧ curr = some c ∧ e = (c - p) / p * 100 := by
  match prev, curr with
  | none, none => simp [pctChange, times100, toFinite] at h
  | none, some c => simp [pctChange, times100, toFinite] at h
  | some p, none => simp [pctChange, times100, toFinite] at h
  | some p, some c =>
    by_cases hp : p = 0
    · simp only [pctChange, hp, if_true] at h
      split_ifs at h <;> simp [times100, toFinite] at h
    · simp only [pctChange, hp, if_false] at h
      simp only [times100, toFinite, Option.some.injEq] at h
      exact ⟨p, c, rfl, hp, rfl, h.symm⟩

/-- C5: the growth calculator emits at most one point per adjacent pair
(so at most input length minus one); every emitted point comes from an
adjacent pair whose previous EPS and share price are present and
non-zero and whose current values are present, carries the current
row's date, and its values are `(curr - prev) / prev * 100`; and any
pair with a null operand or a zero base in either metric is dropped
entirely. -/
theorem c5_growth_drop (pts : List AggPoint) :
    (growthPoints pts).length ≤ pts.length - 1 ∧
    (∀ gp ∈ growthPoints pts, ∃ pc ∈ pts.zip pts.tail, ∃ pe ce pp cp : Rat,
      pc.1.eps = some pe ∧ pe ≠ 0 ∧ pc.2.eps = some ce ∧
      pc.1.price = some pp ∧ pp ≠ 0 ∧ pc.2.price = some cp ∧
      gp.date = pc.2.date ∧ gp.epsG = (ce - pe) / pe * 100 ∧
      gp.priceG = (cp - pp) / pp * 100) ∧
    (∀ p c : AggPoint, p.eps = none ∨ p.eps = some 0 ∨ c.eps = none ∨
        p.price = none ∨ p.price = some 0 ∨ c.price = none →
      emitGrowth p c = none) := by
  refine ⟨?_, ?_, ?_⟩
  · have h1 := List.length_filterMap_le (fun pc : AggPoint × AggPoint => emitGrowth pc.1 pc.2)
      (pts.zip pts.tail)
    have h2 := List.length_zip pts pts.tail
    have h3 := List.length_tail pts
    unfold growthPoints
    omega
  · intro gp hgp
    rcases List.mem_filterMap.mp hgp with ⟨pc, hmem, hemit⟩
    unfold emitGrowth at hemit
    cases he : toFinite (times100 (pctChange pc.1.eps pc.2.eps)) with
    | none => rw [he] at hemit; cases hemit
    | some e =>
      cases hr : toFinite (times100 (pctChange pc.1.price pc.2.price)) with
      | none => rw [he, hr] at hemit; cases hemit
      | some r =>
        rw [he, hr] at hemit
        have hgpe : GrowthPoint.mk pc.2.date e r = gp := by
          have : some (GrowthPoint.mk pc.2.date e r) = some gp := hemit
          exact Option.some.inj this
        rcases toFinite_pctChange he with ⟨pe, ce, hpe, hpe0, hce, heq⟩
        rcases toFinite_pctChange hr with ⟨pp, cp, hpp, hpp0, hcp, hrq⟩
        refine ⟨pc, hmem, pe, ce, pp, cp, hpe, hpe0, hce, hpp, hpp0, hcp, ?_, ?_, ?_⟩
        · rw [← hgpe]
        · rw [← hgpe]; exact heq
        · rw [← hgpe]; exact hrq
  · intro p c h
    unfold emitGrowth
    rcases h with h | h | h | h | h | h
    · rw [h]; simp [pctChange, times100, toFinite]
    · rw [h]
      cases hc : c.eps with
      | none => simp [pctChange, times100, toFinite]
      | some cv => simp only [pctChange, if_pos rfl]; split_ifs <;> simp [times100, toFinite]
    · rw [h]
      cases hp : p.eps with
      | none => simp [pctChange, times100, toFinite]
      | some pv => simp [pctChange, times100, toFinite]
    · rw [h]
      cases toFinite (times100 (pctChange p.eps c.eps)) <;>
        simp [pctChange, times100, toFinite]
    · rw [h]
      cases toFinite (times100 (pctChange p.eps c.eps)) with
      | none => simp [pctChange, times100, toFinite]
      | some e =>
        cases hc : c.price with
        | none => simp [pctChange, times100, toFinite]
        | some cv => simp only [pctChange, if_pos rfl]; split_ifs <;> simp [times100, toFinite]
    · rw [h]
      cases toFinite (times100 (pctChange p.eps c.eps)) with
      | none =>
        cases hp : p.price <;> simp [pctChange, times100, toFinite]
      | some e =>
        cases hp : p.price <;> simp [pctChange, times100, toFinite]

/-- Aggregated points with a zero EPS base in the first transition. -/
def exZeroBase : List AggPoint :=
  [⟨some ⟨2020, 12, 31⟩, some 0, some 10⟩, ⟨some ⟨2021, 12, 31⟩, some 5, some 12⟩]

/-- C5 witness: the drop clause applied to the zero-EPS-base pair — the
transition is omitted, not emitted as infinity or null. -/
theorem c5_growth_drop_witness :
    emitGrowth ⟨some ⟨2020, 12, 31⟩, some 0, some 10⟩ ⟨some ⟨2021, 12, 31⟩, some 5, some 12⟩ =
      none :=
  (c5_growth_drop exZeroBase).2.2 ⟨some ⟨2020, 12, 31⟩, some 0, some 10⟩
    ⟨some ⟨2021, 12, 31⟩, some 5, some 12⟩ (Or.inr (Or.inl rfl))

/-! ### Claim C6: annual trailing-period exclusion -/

/-- C6: every point of the annual aggregation carries a date strictly
before the current calendar year (the line 93 exclusion applies even
when the selected range includes the current year), while the quarterly
aggregation applies no such exclusion — every observation passing the
range filter, current-year ones included, contributes a point for its
quarter. -/
theorem c6_trailing_exclusion (s : List Obs) (sy ey cy : Nat) :
    (∀ p ∈ aggregate Freq.annual sy ey cy s, ∀ dt, p.date = some dt → dt.y < cy) ∧
    (∀ o ∈ filterRange sy ey s, ∃ p ∈ aggregate Freq.quarterly sy ey cy s,
      p.date = some (quarterEndDate (qKey o))) := by
  constructor
  · intro p hp dt hd
    rw [aggregate_annual] at hp
    rcases mem_aggAnnual.mp hp with ⟨kg, hkg, he⟩
    have hdate : lastSome (kg.2.map Obs.date) = some dt := by rw [← hd, ← he]
    rcases List.mem_map.mp (lastSome_mem hdate) with ⟨o, ho, hod⟩
    have hg := (mem_groupsOf hkg).1
    rw [hg] at ho
    have ho2 := mem_sortByDate.mp (List.mem_filter.mp ho).1
    have hb := (List.mem_filter.mp ho2).2
    rw [beforeYear, hod] at hb
    simpa using hb
  · intro o ho
    rw [aggregate_quarterly]
    have hos : o ∈ sortByDate (filterRange sy ey s) := mem_sortByDate.mpr ho
    have hk : qKey o ∈ (sortByDate (filterRange sy ey s)).map qKey :=
      List.mem_map_of_mem qKey hos
    refine ⟨⟨some (quarterEndDate (qKey o)),
      lastSome (((sortByDate (filterRange sy ey s)).filter
        (fun x => qKey x = qKey o)).map Obs.eps),
      lastSome (((sortByDate (filterRange sy ey s)).filter
        (fun x => qKey x = qKey o)).map Obs.price)⟩, ?_, rfl⟩
    exact mem_aggQuarterly.mpr ⟨(qKey o, (sortByDate (filterRange sy ey s)).filter
      (fun x => qKey x = qKey o)), key_mem_groupsOf hk, rfl⟩

/-- Series with one observation in 2024 and one in the (in-progress)
year 2025. -/
def exCurrentYear : List Obs :=
  [⟨some ⟨2024, 5, 1⟩, some 1, some 2⟩, ⟨some ⟨2025, 2, 1⟩, some 3, some 4⟩]

/-- C6 witness: with the wall clock in 2025 and the range covering 2025,
the annual exclusion applies to the 2024 point, and the quarterly branch
still yields a point for the 2025 observation's quarter. -/
theorem c6_trailing_exclusion_witness :
    2024 < 2025 ∧
    ∃ p ∈ aggregate Freq.quarterly 2024 2025 2025 exCurrentYear,
      p.date = some (quarterEndDate (qKey ⟨some ⟨2025, 2, 1⟩, some 3, some 4⟩)) :=
  ⟨(c6_trailing_exclusion exCurrentYear 2024 2025 2025).1
      ⟨some ⟨2024, 5, 1⟩, some 1, some 2⟩ (by decide) ⟨2024, 5, 1⟩ rfl,
    (c6_trailing_exclusion exCurrentYear 2024 2025 2025).2
      ⟨some ⟨2025, 2, 1⟩, some 3, some 4⟩ (by decide)⟩

/-! ### Claim C7: representative dates -/

/-- In a non-empty, date-sorted group of dated observations, the `'last'`
aggregate of the `Date` column is the date of some member that every
group member precedes or equals — the group's last observation. -/
lemma group_last : ∀ g : List Obs, g ≠ [] → g.Sorted obsLE → (∀ o ∈ g, o.date ≠ none) →
    ∃ o ∈ g, lastSome (g.map Obs.date) = o.date ∧ ∀ x ∈ g, obsLE x o := by
  intro g
  induction g with
  | nil => intro hne _ _; exact absurd rfl hne
  | cons a t ih =>
    intro _ hs hd
    cases t with
    | nil =>
      refine ⟨a, List.mem_cons_self a [], rfl, ?_⟩
      intro x hx
      rcases List.mem_singleton.mp hx with rfl
      exact Nat.le_refl _
    | cons b t2 =>
      have ht : (b :: t2) ≠ [] := List.cons_ne_nil b t2
      have hha := (List.sorted_cons.mp hs).1
      rcases ih ht (List.sorted_cons.mp hs).2
          (fun o ho => hd o (List.mem_cons_of_mem a ho)) with ⟨o, ho, hlast, hmax⟩
      refine ⟨o, List.mem_cons_of_mem a ho, ?_, ?_⟩
      · rw [List.map_cons, lastSome, hlast]
        cases hdd : o.date with
        | none => exact absurd hdd (hd o (List.mem_cons_of_mem a ho))
        | some v => rfl
      · intro x hx
        rcases List.mem_cons.mp hx with rfl | hx
        · exact hha o ho
        · exact hmax x hx

/-- A single mid-quarter observation: February 14 lies inside Q1. -/
def exMidQuarter : List Obs := [⟨some ⟨2023, 2, 14⟩, some 7, some 70⟩]

/-- C7: every quarterly aggregated point is dated at a quarter's calendar
end (in particular the mid-quarter February observation produces a point
dated March 31), while every annual aggregated point is dated at the
date of its group's last observation — a member of the filtered series
that every same-year member precedes or equals. -/
theorem c7_representative_date (s : List Obs) (sy ey cy : Nat) :
    (∀ p ∈ aggregate Freq.quarterly sy ey cy s, ∃ k, p.date = some (quarterEndDate k)) ∧
    (∀ p ∈ aggregate Freq.annual sy ey cy s,
      ∃ o ∈ (filterRange sy ey s).filter (beforeYear cy), p.date = o.date ∧
        ∀ x ∈ (filterRange sy ey s).filter (beforeYear cy),
          yearOf x = yearOf o → obsLE x o) ∧
    aggregate Freq.quarterly 2023 2023 2099 exMidQuarter =
      [⟨some ⟨2023, 3, 31⟩, some 7, some 70⟩] := by
  refine ⟨?_, ?_, by decide⟩
  · intro p hp
    rw [aggregate_quarterly] at hp
    rcases mem_aggQuarterly.mp hp with ⟨kg, _, he⟩
    exact ⟨kg.1, by rw [← he]⟩
  · intro p hp
    rw [aggregate_annual] at hp
    rcases mem_aggAnnual.mp hp with ⟨kg, hkg, he⟩
    have hg := (mem_groupsOf hkg).1
    have hkmem := (mem_groupsOf hkg).2
    set inp := (filterRange sy ey s).filter (beforeYear cy) with hinp
    set sorted := sortByDate inp with hsorted
    rcases List.mem_map.mp hkmem with ⟨o0, ho0, ho0k⟩
    have ho0g : o0 ∈ kg.2 := by
      rw [hg]
      exact List.mem_filter.mpr ⟨ho0, by simp [ho0k]⟩
    have hne : kg.2 ≠ [] := List.ne_nil_of_mem ho0g
    have hsg : kg.2.Sorted obsLE := by
      rw [hg]
      exact (List.sorted_insertionSort obsLE inp).filter _
    have hdg : ∀ o ∈ kg.2, o.date ≠ none := by
      intro o ho
      rw [hg] at ho
      have hoi : o ∈ inp := mem_sortByDate.mp (List.mem_filter.mp ho).1
      rcases filterRange_date (List.mem_filter.mp hoi).1 with ⟨dt, hdt, _⟩
      rw [hdt]
      exact Option.some_ne_none dt
    rcases group_last kg.2 hne hsg hdg with ⟨o, ho, hlast, hmax⟩
    have ho2 := ho
    rw [hg] at ho2
    have hoi : o ∈ inp := mem_sortByDate.mp (List.mem_filter.mp ho2).1
    have hok : yearOf o = kg.1 := by
      have := (List.mem_filter.mp ho2).2
      simpa using this
    refine ⟨o, hoi, ?_, ?_⟩
    · rw [← he]
      exact hlast
    · intro x hx hxy
      have hxg : x ∈ kg.2 := by
        rw [hg]
        exact List.mem_filter.mpr ⟨mem_sortByDate.mpr hx, by simp [hxy, hok]⟩
      exact hmax x hxg

/-- C7 witness: both parts applied to the concrete mid-quarter series. -/
theorem c7_representative_date_witness :
    (∃ k, (AggPoint.mk (some ⟨2023, 3, 31⟩) (some 7) (some 70)).date =
      some (quarterEndDate k)) ∧
    ∃ o ∈ (filterRange 2023 2023 exMidQuarter).filter (beforeYear 2099),
      (AggPoint.mk (some ⟨2023, 2, 14⟩) (some 7) (some 70)).date = o.date ∧
      ∀ x ∈ (filterRange 2023 2023 exMidQuarter).filter (beforeYear 2099),
        yearOf x = yearOf o → obsLE x o :=
  ⟨(c7_representative_date exMidQuarter 2023 2023 2099).1
      ⟨some ⟨2023, 3, 31⟩, some 7, some 70⟩ (by decide),
    (c7_representative_date exMidQuarter 2023 2023 2099).2.1
      ⟨some ⟨2023, 2, 14⟩, some 7, some 70⟩ (by decide)⟩

/-! ### Claim C4: last-of-period selection -/

